import Mathlib

/-!
Verification development for the img-router repository.

The definitions below are a shallow embedding of the repository's
TypeScript source:

* `src/base64.ts` — the Codec (`encodeBase64` / `decodeBase64`);
* `src/image_resolver.ts` (unnamed part 000) — the Network-Address Guard
  (`isPrivateIp`, `assertAllowedRemoteUrl`), the Bounded Fetcher
  (`readResponseBytesWithLimit`) and the Image Resolver (`resolveImage`);
* `src/image_input.ts` — `prepareImagesForUpstream`;
* the ModelScope branch of the main server file (unnamed part 001) —
  `extractImages`, the submit/poll orchestration of `handleModelScope`.

Bytes are modelled as `Nat` (a `Uint8Array` entry is always `< 256`; where a
theorem needs that bound it is an explicit hypothesis).  JavaScript strings
are Lean `String`s.  Network effects (the `fetch` calls and the ModelScope
submit/poll HTTP requests) are modelled as oracle values passed to the
functions; a result that is independent of an oracle is a result computed
without performing the corresponding network call.  Wall-clock behaviour
(`setTimeout`, `AbortController`) is not modelled; the poll loop's sleep
interval is tracked as accumulated milliseconds.
-/

namespace ImgRouter

/-- Error taxonomy of the spec (§7), covering the codec, the fetcher, the
resolver and the orchestrator.  Each constructor corresponds to one `throw`
site of the source. -/
inductive Err
  | invalidLength
  | invalidCharacter
  | invalidReference
  | unsupportedEncoding
  | invalidMediaType
  | tooLarge
  | unsupportedScheme
  | blockedBySsrfPolicy
  | upstreamError
  | timeout
  | missingReferenceImage
  | upstreamTaskFailed
  | pollTimeout
  | malformedResponse
deriving DecidableEq, Repr

/-- The character class of the JavaScript regular-expression escape `\s`
(used by `decodeBase64`'s `input.replace(/\s+/g, "")` and by
`String.prototype.trim`). -/
def isJsWhitespace (c : Char) : Bool :=
  c = ' ' || c = '\t' || c = '\n' || c = '\r' || c = '\u000B' || c = '\u000C' ||
  c = '\u00A0' || c = '\u1680' || (0x2000 ≤ c.toNat && c.toNat ≤ 0x200A) ||
  c = '\u2028' || c = '\u2029' || c = '\u202F' || c = '\u205F' ||
  c = '\u3000' || c = '\uFEFF'

/-- JavaScript `String.prototype.trim`: strip `\s` characters from both
ends. -/
def jsTrim (s : String) : String :=
  ⟨((s.data.dropWhile (fun c => isJsWhitespace c)).reverse.dropWhile
      (fun c => isJsWhitespace c)).reverse⟩

/-- JavaScript `String.prototype.startsWith`. -/
def jsStartsWith (s p : String) : Bool :=
  p.data.isPrefixOf s.data

/-- JavaScript `String.prototype.toLowerCase` (ASCII case mapping, the only
range exercised by protocols, hostnames and media types). -/
def jsToLower (s : String) : String :=
  ⟨s.data.map Char.toLower⟩

/-- JavaScript `String.prototype.endsWith`. -/
def jsEndsWith (s p : String) : Bool :=
  p.data.isSuffixOf s.data

/-- JavaScript `String.prototype.includes` for a one-character needle. -/
def jsContainsChar (s : String) (c : Char) : Bool :=
  s.data.contains c

/-- JavaScript `String.prototype.split` with a one-character separator,
on character lists (`"a..b".split(".")` is `["a", "", "b"]`, and
`"".split(".")` is `[""]`). -/
def splitChars (sep : Char) : List Char → List (List Char)
  | [] => [[]]
  | c :: rest =>
    let r := splitChars sep rest
    if c = sep then [] :: r
    else
      match r with
      | h :: t => (c :: h) :: t
      | [] => [[c]]

/-- JavaScript `String.prototype.split` with a one-character separator. -/
def jsSplitOnChar (s : String) (sep : Char) : List String :=
  (splitChars sep s.data).map String.mk

/-- The value of a run of decimal digits (`Number.parseInt` restricted to
the all-digit strings it is given by `parseIpv4`). -/
def digitsToNat (l : List Char) : Nat :=
  l.foldl (fun a c => a * 10 + (c.toNat - '0'.toNat)) 0

-- Decidable equality for fallible results, used to evaluate the
-- embedding on concrete inputs.
deriving instance DecidableEq for Except

/- ================= src/base64.ts ================= -/

/-- `BASE64_ALPHABET` of `src/base64.ts`. -/
def BASE64_ALPHABET : String :=
  "ABCDEFGHIJKLMNOPQRSTUVWXYZabcdefghijklmnopqrstuvwxyz0123456789+/"

/-- Indexing into `BASE64_ALPHABET` (the JS `BASE64_ALPHABET[i]`; every use
in the source has `i < 64`, the default is irrelevant). -/
def i2c (i : Nat) : Char :=
  BASE64_ALPHABET.data.getD i 'A'

/-- The `BASE64_LOOKUP` read of `src/base64.ts`.  The source table is an
`Int16Array(256)` filled with `-1`, with the alphabet indices set and the
base64url variants `-` and `_` mapped to 62 and 63.  A read at a char
code of 256 or above is out of bounds and yields `undefined`, which
passes every validity check of the decoder (`undefined < 0` and
`undefined === -1` are false, `undefined !== -2` is true) and coerces to
0 in the bit arithmetic (`undefined << k` and `undefined & 63` are 0) —
behaviorally the table value 0, which is how it is modelled here. -/
def jsLookup (c : Char) : Int :=
  if 256 ≤ c.toNat then 0
  else if c = '-' then 62
  else if c = '_' then 63
  else
    match BASE64_ALPHABET.data.findIdx? (fun a => a == c) with
    | some i => Int.ofNat i
    | none => -1

/-- The character list produced by `encodeBase64` of `src/base64.ts`:
full 3-byte groups, then the 1- or 2-byte remainder with `==` / `=`
padding. -/
def encodeChars : List Nat → List Char
  | [] => []
  | [b0] =>
    [i2c ((b0 >>> 2) &&& 63), i2c ((b0 &&& 3) <<< 4), '=', '=']
  | [b0, b1] =>
    let n := (b0 <<< 8) ||| b1
    [i2c ((n >>> 10) &&& 63), i2c ((n >>> 4) &&& 63), i2c ((n &&& 15) <<< 2), '=']
  | b0 :: b1 :: b2 :: rest =>
    let n := (b0 <<< 16) ||| (b1 <<< 8) ||| b2
    i2c ((n >>> 18) &&& 63) :: i2c ((n >>> 12) &&& 63) ::
      i2c ((n >>> 6) &&& 63) :: i2c (n &&& 63) :: encodeChars rest

/-- `encodeBase64` of `src/base64.ts` (the empty input produces `""`). -/
def encodeBase64 (bytes : List Nat) : String :=
  ⟨encodeChars bytes⟩

/-- JavaScript `v & 63` on the (possibly negative) lookup values: 32-bit
two's-complement bitwise-and with 63 equals `v mod 64`. -/
def jsAnd63 (v : Int) : Nat :=
  (v % 64).toNat

/-- The 4-character-group loop of `decodeBase64`: `=` in the last two slots
of a group becomes the sentinel `-2` (skipping the corresponding output
byte); a group fails when slot 0 or 1 is not in the lookup table or slot
2 or 3 is a character that is neither `=` nor in the table. -/
def decodeGroups : List Char → Except Err (List Nat)
  | c0 :: c1 :: c2 :: c3 :: rest =>
    let v0 := jsLookup c0
    let v1 := jsLookup c1
    let v2 : Int := if c2 = '=' then -2 else jsLookup c2
    let v3 : Int := if c3 = '=' then -2 else jsLookup c3
    if v0 < 0 ∨ v1 < 0 ∨ v2 = -1 ∨ v3 = -1 then .error .invalidCharacter
    else
      let n : Nat := (v0.toNat <<< 18) ||| (v1.toNat <<< 12) |||
        (jsAnd63 v2 <<< 6) ||| jsAnd63 v3
      let bs : List Nat :=
        [(n >>> 16) &&& 255]
          ++ (if v2 ≠ -2 then [(n >>> 8) &&& 255] else [])
          ++ (if v3 ≠ -2 then [n &&& 255] else [])
      match decodeGroups rest with
      | .error e => .error e
      | .ok tl => .ok (bs ++ tl)
  | _ => .ok []

/-- The trailing-padding count of `decodeBase64`
(`endsWith("==") ? 2 : endsWith("=") ? 1 : 0`): 2 when the last two
characters are both `=`, 1 when only the last is, 0 otherwise. -/
def padOf (l : List Char) : Nat :=
  match l.reverse with
  | c0 :: c1 :: _ => if c0 = '=' then (if c1 = '=' then 2 else 1) else 0
  | [c0] => if c0 = '=' then 1 else 0
  | [] => 0

/-- `decodeBase64` of `src/base64.ts`.  Whitespace is stripped, missing
padding is tolerated by right-padding with `=` to a multiple of 4, the
output buffer is pre-sized from the padded length minus the trailing
padding and its unwritten tail stays zero (the JS `Uint8Array` is
zero-initialised and out-of-range writes are dropped). -/
def decodeBase64 (input : String) : Except Err (List Nat) :=
  let cleaned := input.data.filter (fun c => ! isJsWhitespace c)
  if cleaned.length = 0 then .ok []
  else
    let md := cleaned.length % 4
    let padded := if md = 0 then cleaned else cleaned ++ List.replicate (4 - md) '='
    if padded.length % 4 ≠ 0 then .error .invalidLength
    else
      let padding := padOf padded
      let outLen := (padded.length / 4) * 3 - padding
      match decodeGroups padded with
      | .error e => .error e
      | .ok written => .ok (written.take outLen ++ List.replicate (outLen - written.length) 0)

/- ================= Network-Address Guard (image_resolver) ================= -/

/-- `isLikelyIpV4` of the image resolver: the regular expression
`^\d{1,3}(\.\d{1,3}){3}$`, i.e. exactly four dot-separated runs of one to
three decimal digits. -/
def isLikelyIpV4 (host : String) : Bool :=
  let parts := jsSplitOnChar host '.'
  parts.length = 4 &&
    parts.all (fun p => 1 ≤ p.length && p.length ≤ 3 && p.data.all Char.isDigit)

/-- `parseIpv4` of the image resolver: the four octets, each required to be
at most 255. -/
def parseIpv4 (host : String) : Option (List Nat) :=
  if isLikelyIpV4 host then
    let parts := (jsSplitOnChar host '.').map (fun p => digitsToNat p.data)
    if parts.length = 4 && parts.all (fun n => n ≤ 255) then some parts else none
  else none

/-- `isPrivateIp` of the image resolver: the literal localhost aliases, the
private/loopback/link-local IPv4 ranges, and the coarse textual IPv6
checks (`::1`, `fc`/`fd`, `fe80:`), with everything else public. -/
def isPrivateIp (host : String) : Bool :=
  let h := jsToLower host
  if h = "localhost" || jsEndsWith h ".localhost" then true
  else if h = "0.0.0.0" then true
  else if h = "::1" then true
  else
    match parseIpv4 h with
    | some parts =>
      let a := parts.getD 0 0
      let b := parts.getD 1 0
      a = 127 || a = 10 || (a = 192 && b = 168) ||
        (a = 172 && 16 ≤ b && b ≤ 31) || (a = 169 && b = 254)
    | none =>
      if jsContainsChar h ':' then
        let noZone := (jsSplitOnChar h '%').headD h
        if noZone = "::1" then true
        else
          jsStartsWith noZone "fc" || jsStartsWith noZone "fd" ||
            jsStartsWith noZone "fe80:" || jsStartsWith noZone "fe80::"
      else false

/-- The `protocol`/`hostname` of a parsed URL (the JS `URL` object is the
host runtime's; only these two fields are consumed by the guard). -/
structure UrlParts where
  protocol : String
  hostname : String
deriving DecidableEq, Repr

/-- `assertAllowedRemoteUrl` of the image resolver, as a partial-error
value: `unsupportedScheme` for a non-http(s) protocol, then
`blockedBySsrfPolicy` when private-network access is disallowed and the
hostname is classified private. -/
def assertAllowedRemoteUrl (u : UrlParts) (allowPrivateNetwork : Bool) : Option Err :=
  let p := jsToLower u.protocol
  if p ≠ "http:" && p ≠ "https:" then some .unsupportedScheme
  else if !allowPrivateNetwork && isPrivateIp u.hostname then some .blockedBySsrfPolicy
  else none

/- ================= Bounded Fetcher (image_resolver) ================= -/

/-- JavaScript `Number.parseInt(s, 10)`: skip leading whitespace, an
optional sign, then the longest run of decimal digits; `NaN` (here `none`)
when no digit follows. -/
def jsParseInt (s : String) : Option Int :=
  let t := s.data.dropWhile (fun c => isJsWhitespace c)
  let core := fun (l : List Char) =>
    let ds := l.takeWhile (fun c => c.isDigit)
    if ds.isEmpty then none
    else some (digitsToNat ds)
  match t with
  | '-' :: rest => (core rest).map (fun n => -(n : Int))
  | '+' :: rest => (core rest).map (fun n => (n : Int))
  | l => (core l).map (fun n => (n : Int))

/-- The fast-rejection check of `readResponseBytesWithLimit`: a present,
non-empty `content-length` header that parses to a finite number greater
than the byte ceiling. -/
def clRejects (hdr : Option String) (maxBytes : Nat) : Bool :=
  match hdr with
  | none => false
  | some h =>
    if h = "" then false
    else
      match jsParseInt h with
      | none => false
      | some d => decide ((maxBytes : Int) < d)

/-- The incremental read loop of `readResponseBytesWithLimit`: one chunk
per `reader.read()`, with the running total checked against the ceiling
after each chunk; the read is aborted (no later chunk is examined) as soon
as the total exceeds the ceiling. -/
def readChunks (maxBytes : Nat) : List (List Nat) → Nat → Except Err (List (List Nat))
  | [], _ => .ok []
  | c :: rest, total =>
    let t := total + c.length
    if maxBytes < t then .error .tooLarge
    else
      match readChunks maxBytes rest t with
      | .error e => .error e
      | .ok ks => .ok (c :: ks)

/-- `readResponseBytesWithLimit` of the image resolver, over a response
modelled as its `content-length` header and its body chunk stream (`none`
body means `resp.body` is null and yields zero bytes). -/
def readResponseBytesWithLimit (hdr : Option String) (body : Option (List (List Nat)))
    (maxBytes : Nat) : Except Err (List Nat) :=
  if clRejects hdr maxBytes then .error .tooLarge
  else
    match body with
    | none => .ok []
    | some chunks =>
      match readChunks maxBytes chunks 0 with
      | .error e => .error e
      | .ok ks => .ok ks.flatten

/- ================= Image Resolver ================= -/

/-- `ResolvedImage` of the image resolver. -/
structure ResolvedImage where
  url : String
  mime : String
  bytes : List Nat
  base64 : String
  dataUrl : String
  size : Nat
deriving DecidableEq, Repr

/-- What the remote server answers to the resolver's single GET request:
the `fetch` oracle.  `ok` is `resp.ok`; the two headers and the body chunk
stream are the parts `resolveImage` consumes. -/
structure FetchOutcome where
  ok : Bool
  contentType : Option String
  contentLengthHeader : Option String
  body : Option (List (List Nat))
deriving DecidableEq, Repr

/-- `isDataUrl` of the image resolver. -/
def isDataUrl (url : String) : Bool :=
  jsStartsWith url "data:"

/-- `normalizeMime` of the image resolver: `undefined` for an empty input,
otherwise cut at the first `;`, trim and lower-case. -/
def normalizeMime (m : String) : Option String :=
  if m = "" then none
  else
    let cut := match m.data.findIdx? (fun c => c == ';') with
      | some i => String.mk (m.data.take i)
      | none => m
    some (jsToLower (jsTrim cut))

/-- The media type read from a data URL's `;`-separated metadata by
`parseDataUrlToBytes` (`normalizeMime(metaParts[0] || "") ||
"application/octet-stream"`). -/
def dataUrlMime (meta : String) : String :=
  match normalizeMime ((jsSplitOnChar meta ';').headD "") with
  | none => "application/octet-stream"
  | some s => if s = "" then "application/octet-stream" else s

/-- The `base64` marker test of `parseDataUrlToBytes`: some `;`-separated
metadata part, trimmed and lower-cased, is `base64`. -/
def dataUrlIsB64 (meta : String) : Bool :=
  ((jsSplitOnChar meta ';').map (fun p => jsToLower (jsTrim p))).contains "base64"

/-- `parseDataUrlToBytes` of the image resolver: split at the first comma,
read the media type from the `;`-separated metadata (falling back to
`application/octet-stream`), require a `base64` marker and an `image/*`
media type, then decode the payload with the Codec. -/
def parseDataUrlToBytes (url : String) : Except Err (String × List Nat) :=
  match url.data.findIdx? (fun c => c == ',') with
  | none => .error .invalidReference
  | some comma =>
    let meta := String.mk ((url.data.drop 5).take (comma - 5))
    let dat := String.mk (url.data.drop (comma + 1))
    let mime := dataUrlMime meta
    if !(dataUrlIsB64 meta) then .error .unsupportedEncoding
    else if !(jsStartsWith mime "image/") then .error .invalidMediaType
    else
      match decodeBase64 dat with
      | .error e => .error e
      | .ok bytes => .ok (mime, bytes)

/-- The content-type acceptance test of `resolveImage`'s remote path
(the negation of `!ct || !ct.startsWith("image/")`): a present, non-empty
normalized content type that begins with `image/`. -/
def ctValid (ct : Option String) : Bool :=
  match ct with
  | some c => c ≠ "" && jsStartsWith c "image/"
  | none => false

/-- `resolveImage` of the image resolver.  `parsed` is the outcome of the
host runtime's `new URL(url)` (`none` means the constructor threw), and
`f` is the `fetch` oracle; a result independent of `f` is reached without
any network fetch.  The time budget (`timeoutMs`, `AbortController`) is
wall-clock behaviour and is not modelled. -/
def resolveImage (url : String) (maxBytes : Nat) (allowPrivateNetwork : Bool)
    (parsed : Option UrlParts) (f : FetchOutcome) : Except Err ResolvedImage :=
  if jsTrim url = "" then .error .invalidReference
  else if isDataUrl url then
    match parseDataUrlToBytes url with
    | .error e => .error e
    | .ok (mime, bytes) =>
      if maxBytes < bytes.length then .error .tooLarge
      else
        let b64 := encodeBase64 bytes
        .ok { url := url, mime := mime, bytes := bytes, base64 := b64,
              dataUrl := "data:" ++ mime ++ ";base64," ++ b64, size := bytes.length }
  else
    match parsed with
    | none => .error .invalidReference
    | some u =>
      match assertAllowedRemoteUrl u allowPrivateNetwork with
      | some e => .error e
      | none =>
        if !f.ok then .error .upstreamError
        else
          let ct := f.contentType.bind normalizeMime
          if !(ctValid ct) then .error .invalidMediaType
          else
            let mime := ct.getD ""
            match readResponseBytesWithLimit f.contentLengthHeader f.body maxBytes with
            | .error e => .error e
            | .ok bytes =>
              let b64 := encodeBase64 bytes
              .ok { url := url, mime := mime, bytes := bytes, base64 := b64,
                    dataUrl := "data:" ++ mime ++ ";base64," ++ b64, size := bytes.length }

/- ================= src/image_input.ts ================= -/

/-- `ImageInputMode` of `src/image_input.ts`. -/
inductive ImageInputMode
  | passthrough
  | fetch_to_base64
deriving DecidableEq, Repr

/-- `ImageBase64Format` of `src/image_input.ts`. -/
inductive ImageBase64Format
  | data_url
  | raw_base64
deriving DecidableEq, Repr

/-- The fetch-to-base64 branch of `prepareImagesForUpstream`: resolve each
non-blank entry in order, short-circuiting on the first failure. -/
def prepareImagesGo (fmt : ImageBase64Format) (maxBytes : Nat) (allowPrivateNetwork : Bool)
    (parse : String → Option UrlParts) (fetch : String → FetchOutcome) :
    List String → Except Err (List String)
  | [] => .ok []
  | u :: rest =>
    if jsTrim u = "" then prepareImagesGo fmt maxBytes allowPrivateNetwork parse fetch rest
    else
      match resolveImage u maxBytes allowPrivateNetwork (parse u) (fetch u) with
      | .error e => .error e
      | .ok r =>
        match prepareImagesGo fmt maxBytes allowPrivateNetwork parse fetch rest with
        | .error e => .error e
        | .ok out =>
          .ok ((if fmt = ImageBase64Format.raw_base64 then r.base64 else r.dataUrl) :: out)

/-- `prepareImagesForUpstream` of `src/image_input.ts`.  `parse` and
`fetch` are the per-URL oracles handed down to `resolveImage`; the
passthrough branch returns before either is consulted. -/
def prepareImagesForUpstream (imageUrls : List String) (mode : ImageInputMode)
    (fmt : ImageBase64Format) (maxBytes : Nat) (allowPrivateNetwork : Bool)
    (parse : String → Option UrlParts) (fetch : String → FetchOutcome) :
    Except Err (List String) :=
  if imageUrls.length = 0 then .ok []
  else if mode = ImageInputMode.passthrough then
    .ok (imageUrls.filter (fun u => jsTrim u ≠ ""))
  else prepareImagesGo fmt maxBytes allowPrivateNetwork parse fetch imageUrls

/- ================= ModelScope orchestrator (main server file) ================= -/

/-- A value probed by `extractImages`' `pushAny`: a JSON string, an object
with the three recognised fields, or anything else (ignored). -/
inductive ImgVal
  | str (s : String)
  | obj (url b64_json base64 : Option String)
  | other
deriving DecidableEq, Repr

/-- An element of `extractImages`' output list. -/
structure ExtractedItem where
  url : Option String
  b64_json : Option String
deriving DecidableEq, Repr

/-- JS truthiness of a possibly-absent string (absent and `""` are falsy). -/
def truthyS (o : Option String) : Bool :=
  match o with
  | some s => s ≠ ""
  | none => false

/-- `pushAny` inside `extractImages`: a falsy value is skipped; a string is
an inline image when it carries the `data:` marker and a remote reference
otherwise; an object contributes when its `url`, `b64_json` or `base64`
field is a truthy string (`b64_json` shadowing `base64`). -/
def pushAny (v : ImgVal) : List ExtractedItem :=
  match v with
  | .str s =>
    if s = "" then []
    else if jsStartsWith s "data:" then [{ url := none, b64_json := some s }]
    else [{ url := some s, b64_json := none }]
  | .obj u bj b =>
    let b64 := match bj with
      | some s => some s
      | none => b
    if truthyS u || truthyS b64 then [{ url := u, b64_json := b64 }] else []
  | .other => []

/-- `tryArray` inside `extractImages`: push every element of an array
field, skip a missing or non-array field. -/
def tryArray (o : Option (List ImgVal)) : List ExtractedItem :=
  match o with
  | some arr => (arr.map pushAny).flatten
  | none => []

/-- `pushAny` applied to a possibly-absent singular field. -/
def pushAnyOpt (o : Option ImgVal) : List ExtractedItem :=
  match o with
  | some v => pushAny v
  | none => []

/-- The fields of a provider payload's nested `output` object that
`extractImages` probes. -/
structure MSOutput where
  output_images : Option (List ImgVal) := none
  images : Option (List ImgVal) := none
  output_image : Option ImgVal := none
  image : Option ImgVal := none
deriving DecidableEq, Repr

/-- The fields of a provider payload that `extractImages` probes. -/
structure MSPayload where
  output_images : Option (List ImgVal) := none
  output : Option MSOutput := none
  images : Option (List ImgVal) := none
  data : Option (List ImgVal) := none
  output_image : Option ImgVal := none
deriving DecidableEq, Repr

/-- The final filter of `extractImages`: keep an item whose `url` or
`b64_json` is a string that is non-empty after trimming. -/
def isKept (x : ExtractedItem) : Bool :=
  (match x.url with
    | some u => jsTrim u ≠ ""
    | none => false) ||
  (match x.b64_json with
    | some b => jsTrim b ≠ ""
    | none => false)

/-- `extractImages` of `handleModelScope`: the fixed probe order of the
source — `output_images`, `output.output_images`, `output.images`,
`output_images` again, `images`, `data`, then the singular `output_image`,
`output.output_image`, `output.image` — followed by the truthiness
filter. -/
def extractImages (p : MSPayload) : List ExtractedItem :=
  (tryArray p.output_images
    ++ tryArray (p.output.bind MSOutput.output_images)
    ++ tryArray (p.output.bind MSOutput.images)
    ++ tryArray p.output_images
    ++ tryArray p.images
    ++ tryArray p.data
    ++ pushAnyOpt p.output_image
    ++ pushAnyOpt (p.output.bind MSOutput.output_image)
    ++ pushAnyOpt (p.output.bind MSOutput.image)).filter isKept

/-- The `toMarkdown` rendering of one extracted item in `handleModelScope`
(a bare payload without the `data:` marker is wrapped as a PNG data URL). -/
def toMarkdown (img : ExtractedItem) : String :=
  if truthyS img.url then "![Generated Image](" ++ img.url.getD "" ++ ")"
  else if truthyS img.b64_json then
    let b := img.b64_json.getD ""
    let v := if jsStartsWith b "data:" then b else "data:image/png;base64," ++ b
    "![Generated Image](" ++ v ++ ")"
  else ""

/-- The result-string assembly of `handleModelScope`: markdown lines joined
by blank lines, with the fallback text when nothing rendered. -/
def renderImages (imgs : List ExtractedItem) : String :=
  let s := String.intercalate "\n\n" ((imgs.map toMarkdown).filter (fun t => t ≠ ""))
  if s = "" then "图片生成失败" else s

/-- The poll interval of `handleModelScope` (`setTimeout(resolve, 5000)`),
in milliseconds. -/
def pollIntervalMs : Nat := 5000

/-- The attempt bound of `handleModelScope`'s poll loop (`maxAttempts`). -/
def maxPollAttempts : Nat := 60

/-- What one poll attempt of `handleModelScope` observes, after the
optional header-downgrade retry: either a still-failing status query
(`httpError`, logged and skipped) or a JSON body with its `task_status`. -/
inductive PollAttempt
  | httpError
  | response (task_status : String) (payload : MSPayload)

/-- Terminal outcome of the poll loop, with the attempt counter
(`pollingAttempts`) and the total time slept at the fixed interval. -/
inductive PollResult
  | success (payload : MSPayload) (attempts : Nat) (sleptMs : Nat)
  | taskFailed (attempts : Nat)
  | timeout
deriving DecidableEq

/-- The poll loop of `handleModelScope` from attempt index `i` with the
given remaining fuel: sleep, increment the attempt counter, query; a
failed query is skipped, `SUCCEED` and `FAILED` are terminal, anything
else keeps polling; exhausted fuel is the task timeout. -/
def pollFrom (resp : Nat → PollAttempt) : Nat → Nat → PollResult
  | _, 0 => .timeout
  | i, fuel + 1 =>
    match resp i with
    | .httpError => pollFrom resp (i + 1) fuel
    | .response st payload =>
      if st = "SUCCEED" then .success payload (i + 1) (pollIntervalMs * (i + 1))
      else if st = "FAILED" then .taskFailed (i + 1)
      else pollFrom resp (i + 1) fuel

/-- The full 60-attempt poll loop of `handleModelScope`. -/
def runPoll (resp : Nat → PollAttempt) : PollResult :=
  pollFrom resp 0 maxPollAttempts

/-- What the ModelScope submit request returns: a non-2xx error, or a JSON
body with an optional `task_id` and the payload itself (the synchronous
fast path when `task_id` is absent). -/
inductive SubmitOutcome
  | httpError (status : Nat)
  | accepted (task_id : Option String) (payload : MSPayload)

/-- The network oracles of one `handleModelScope` call: the submit
response and the per-attempt poll responses. -/
structure MSOracles where
  submit : SubmitOutcome
  poll : Nat → PollAttempt

/-- A successful `handleModelScope` outcome: the rendered markdown, the
number of poll attempts used and the total interval time slept (0 for the
synchronous fast path). -/
structure MSSuccess where
  content : String
  attempts : Nat
  sleptMs : Nat
deriving DecidableEq

/-- The submit-response handling and poll phase of `handleModelScope`: a
non-2xx submit is an upstream error; a body without `task_id` is the
synchronous fast path (extract directly, failing `malformedResponse` when
nothing is extractable); otherwise run the poll loop, mapping `FAILED` to
`upstreamTaskFailed` and fuel exhaustion to `pollTimeout`. -/
def handleModelScopePollPhase (o : MSOracles) : Except Err MSSuccess :=
  match o.submit with
  | .httpError _ => .error .upstreamError
  | .accepted none payload =>
    let imageData := extractImages payload
    if imageData.length > 0 then .ok ⟨renderImages imageData, 0, 0⟩
    else .error .malformedResponse
  | .accepted (some _) _ =>
    match runPoll o.poll with
    | .success payload attempts slept =>
      .ok ⟨renderImages (extractImages payload), attempts, slept⟩
    | .taskFailed _ => .error .upstreamTaskFailed
    | .timeout => .error .pollTimeout

/-- The image-edit branch of `handleModelScope`: require a reference
image, resolve it through `resolveImage` (with the URL-parse and fetch
oracles), and only then build the multipart form and submit (the form
construction itself carries no logic that the claims touch).  A result
independent of `o` is reached before any submission network call. -/
def handleModelScopeEdit (images : List String) (maxBytes : Nat)
    (allowPrivateNetwork : Bool) (parse : String → Option UrlParts)
    (fetchImg : FetchOutcome) (o : MSOracles) : Except Err MSSuccess :=
  match images with
  | [] => .error .missingReferenceImage
  | img :: _ =>
    match resolveImage img maxBytes allowPrivateNetwork (parse img) fetchImg with
    | .error e => .error e
    | .ok _ => handleModelScopePollPhase o

/- ================= Arithmetic bridges ================= -/

theorem and63_eq (x : Nat) : x &&& 63 = x % 64 := by
  have h := Nat.and_pow_two_sub_one_eq_mod x 6
  norm_num at h
  exact h

theorem and255_eq (x : Nat) : x &&& 255 = x % 256 := by
  have h := Nat.and_pow_two_sub_one_eq_mod x 8
  norm_num at h
  exact h

theorem and15_eq (x : Nat) : x &&& 15 = x % 16 := by
  have h := Nat.and_pow_two_sub_one_eq_mod x 4
  norm_num at h
  exact h

theorem and3_eq (x : Nat) : x &&& 3 = x % 4 := by
  have h := Nat.and_pow_two_sub_one_eq_mod x 2
  norm_num at h
  exact h

theorem nat_or_add (k a b : Nat) (hd : 2 ^ k ∣ a) (hb : b < 2 ^ k) :
    a ||| b = a + b := by
  obtain ⟨c, rfl⟩ := hd
  exact (Nat.mul_add_lt_is_or hb c).symm

theorem and63_lt (x : Nat) : x &&& 63 < 64 := by
  rw [and63_eq]; omega

theorem and3_shl4_lt (x : Nat) : (x &&& 3) <<< 4 < 64 := by
  rw [and3_eq, Nat.shiftLeft_eq]; norm_num; omega

theorem and15_shl2_lt (x : Nat) : (x &&& 15) <<< 2 < 64 := by
  rw [and15_eq, Nat.shiftLeft_eq]; norm_num; omega

/- ================= Alphabet facts ================= -/

theorem jsLookup_i2c : ∀ v, v < 64 → jsLookup (i2c v) = (v : Int) := by decide

theorem i2c_ne_pad : ∀ v, v < 64 → ¬ (i2c v = '=') := by decide

theorem i2c_not_ws : ∀ v, v < 64 → isJsWhitespace (i2c v) = false := by decide

theorem pad_not_ws : isJsWhitespace '=' = false := by decide

theorem jsAnd63_cast (x : Nat) (h : x < 64) : jsAnd63 (x : Int) = x := by
  unfold jsAnd63
  omega

theorem jsAnd63_neg2 : jsAnd63 (-2) = 62 := by decide

theorem jsLookup_pad : jsLookup '=' = -1 := by decide

/- ================= encodeChars facts ================= -/

theorem encodeChars_mem_not_ws : ∀ B : List Nat, ∀ c ∈ encodeChars B, isJsWhitespace c = false := by
  intro B
  induction B using encodeChars.induct with
  | case1 => simp [encodeChars]
  | case2 b0 =>
    intro c hc
    simp only [encodeChars, List.mem_cons, List.mem_singleton, List.not_mem_nil, or_false] at hc
    rcases hc with h | h | h | h <;> subst h
    · exact i2c_not_ws _ (and63_lt _)
    · exact i2c_not_ws _ (and3_shl4_lt _)
    · exact pad_not_ws
    · exact pad_not_ws
  | case3 b0 b1 =>
    intro c hc
    simp only [encodeChars, List.mem_cons, List.mem_singleton, List.not_mem_nil, or_false] at hc
    rcases hc with h | h | h | h <;> subst h
    · exact i2c_not_ws _ (and63_lt _)
    · exact i2c_not_ws _ (and63_lt _)
    · exact i2c_not_ws _ (and15_shl2_lt _)
    · exact pad_not_ws
  | case4 b0 b1 b2 rest ih =>
    intro c hc
    simp only [encodeChars, List.mem_cons] at hc
    rcases hc with h | h | h | h | h
    · subst h; exact i2c_not_ws _ (and63_lt _)
    · subst h; exact i2c_not_ws _ (and63_lt _)
    · subst h; exact i2c_not_ws _ (and63_lt _)
    · subst h; exact i2c_not_ws _ (and63_lt _)
    · exact ih c h

theorem encodeChars_filter (B : List Nat) :
    (encodeChars B).filter (fun c => ! isJsWhitespace c) = encodeChars B := by
  apply List.filter_eq_self.mpr
  intro c hc
  rw [encodeChars_mem_not_ws B c hc]
  rfl

theorem encodeChars_length : ∀ B : List Nat, (encodeChars B).length = 4 * ((B.length + 2) / 3) := by
  intro B
  induction B using encodeChars.induct with
  | case1 => simp [encodeChars]
  | case2 b0 => simp [encodeChars]
  | case3 b0 b1 => simp [encodeChars]
  | case4 b0 b1 b2 rest ih =>
    simp only [encodeChars, List.length_cons, ih, List.length_cons]
    omega

theorem padOf_four (a b c d : Char) :
    padOf [a, b, c, d] = (if d = '=' then (if c = '=' then 2 else 1) else 0) := rfl

theorem padOf_append (xs l : List Char) (h : 2 ≤ l.length) : padOf (xs ++ l) = padOf l := by
  unfold padOf
  rw [List.reverse_append]
  rcases hrev : l.reverse with _ | ⟨r0, rs0⟩
  · exfalso
    have hl := congrArg List.length hrev
    simp only [List.length_reverse, List.length_nil] at hl
    omega
  · rcases rs0 with _ | ⟨r1, rs⟩
    · exfalso
      have hl := congrArg List.length hrev
      simp only [List.length_reverse, List.length_cons, List.length_nil] at hl
      omega
    · rfl

theorem padOf_encodeChars : ∀ B : List Nat, B ≠ [] →
    padOf (encodeChars B) =
      (if B.length % 3 = 0 then 0 else if B.length % 3 = 1 then 2 else 1) := by
  intro B
  induction B using encodeChars.induct with
  | case1 => intro h; exact absurd rfl h
  | case2 b0 =>
    intro _
    show padOf [_, _, '=', '='] = _
    rw [padOf_four, if_pos rfl, if_pos rfl]
    norm_num
  | case3 b0 b1 =>
    intro _
    show padOf [_, _, _, '='] = _
    rw [padOf_four, if_pos rfl, if_neg (i2c_ne_pad _ (and15_shl2_lt _))]
    norm_num
  | case4 b0 b1 b2 rest ih =>
    intro _
    rcases Decidable.em (rest = []) with hr | hr
    · subst hr
      show padOf [_, _, _, _] = _
      rw [padOf_four, if_neg (i2c_ne_pad _ (and63_lt _))]
      norm_num
    · have hlen : 2 ≤ (encodeChars rest).length := by
        rw [encodeChars_length]
        have : rest.length ≠ 0 := by
          intro h0
          exact hr (List.length_eq_zero.mp h0)
        omega
      have hshape : encodeChars (b0 :: b1 :: b2 :: rest) =
          [i2c ((((b0 <<< 16) ||| (b1 <<< 8) ||| b2) >>> 18) &&& 63),
           i2c ((((b0 <<< 16) ||| (b1 <<< 8) ||| b2) >>> 12) &&& 63),
           i2c ((((b0 <<< 16) ||| (b1 <<< 8) ||| b2) >>> 6) &&& 63),
           i2c (((b0 <<< 16) ||| (b1 <<< 8) ||| b2) &&& 63)] ++ encodeChars rest := by
        simp [encodeChars]
      rw [hshape, padOf_append _ _ hlen, ih hr]
      have : (b0 :: b1 :: b2 :: rest).length % 3 = rest.length % 3 := by
        simp only [List.length_cons]
        omega
      rw [this]

/- ================= Round-trip: per-group lemmas ================= -/

theorem nat_or_add_num (m a b k : Nat) (hm : m = 2 ^ k) (hd : m ∣ a) (hb : b < m) :
    a ||| b = a + b := by
  subst hm
  exact nat_or_add k a b hd hb

theorem or2_eq (b0 b1 : Nat) (h1 : b1 < 256) :
    (b0 <<< 8) ||| b1 = b0 * 256 + b1 := by
  rw [Nat.shiftLeft_eq, (show (2 : Nat) ^ 8 = 256 from by norm_num)]
  rw [nat_or_add_num 256 (b0 * 256) b1 8 (by norm_num) ⟨b0, by ring⟩ (by omega)]

theorem or3_eq (b0 b1 b2 : Nat) (h1 : b1 < 256) (h2 : b2 < 256) :
    (b0 <<< 16) ||| (b1 <<< 8) ||| b2 = b0 * 65536 + b1 * 256 + b2 := by
  rw [Nat.shiftLeft_eq, Nat.shiftLeft_eq,
    (show (2 : Nat) ^ 16 = 65536 from by norm_num),
    (show (2 : Nat) ^ 8 = 256 from by norm_num)]
  rw [nat_or_add_num 65536 (b0 * 65536) (b1 * 256) 16 (by norm_num) ⟨b0, by ring⟩ (by omega)]
  rw [nat_or_add_num 256 (b0 * 65536 + b1 * 256) b2 8 (by norm_num)
    ⟨b0 * 256 + b1, by ring⟩ (by omega)]

theorem or4_eq (w x y z : Nat) (hx : x < 64) (hy : y < 64) (hz : z < 64) :
    (w <<< 18) ||| (x <<< 12) ||| (y <<< 6) ||| z =
      w * 262144 + x * 4096 + y * 64 + z := by
  rw [Nat.shiftLeft_eq, Nat.shiftLeft_eq, Nat.shiftLeft_eq,
    (show (2 : Nat) ^ 18 = 262144 from by norm_num),
    (show (2 : Nat) ^ 12 = 4096 from by norm_num),
    (show (2 : Nat) ^ 6 = 64 from by norm_num)]
  rw [nat_or_add_num 262144 (w * 262144) (x * 4096) 18 (by norm_num) ⟨w, by ring⟩ (by omega)]
  rw [nat_or_add_num 4096 (w * 262144 + x * 4096) (y * 64) 12 (by norm_num)
    ⟨w * 64 + x, by ring⟩ (by omega)]
  rw [nat_or_add_num 64 (w * 262144 + x * 4096 + y * 64) z 6 (by norm_num)
    ⟨w * 4096 + x * 64 + y, by ring⟩ (by omega)]

theorem decodeGroups_g1 (w0 w1 : Nat) (hw0 : w0 < 64) (hw1 : w1 < 64) :
    decodeGroups [i2c w0, i2c w1, '=', '='] =
      .ok [(w0 * 262144 + w1 * 4096 + 62 * 64 + 62) / 65536 % 256] := by
  simp only [decodeGroups, jsLookup_i2c _ hw0, jsLookup_i2c _ hw1, if_pos rfl, if_true]
  rw [if_neg (by omega :
    ¬ ((w0 : Int) < 0 ∨ (w1 : Int) < 0 ∨ (-2 : Int) = -1 ∨ (-2 : Int) = -1))]
  rw [if_neg (by omega : ¬ ((-2 : Int) ≠ -2)), if_neg (by omega : ¬ ((-2 : Int) ≠ -2))]
  simp only [Int.toNat_natCast, jsAnd63_neg2]
  rw [or4_eq w0 w1 62 62 hw1 (by omega) (by omega)]
  rw [Nat.shiftRight_eq_div_pow, and255_eq]
  norm_num

theorem decodeGroups_g2 (w0 w1 w2 : Nat) (hw0 : w0 < 64) (hw1 : w1 < 64) (hw2 : w2 < 64) :
    decodeGroups [i2c w0, i2c w1, i2c w2, '='] =
      .ok [(w0 * 262144 + w1 * 4096 + w2 * 64 + 62) / 65536 % 256,
           (w0 * 262144 + w1 * 4096 + w2 * 64 + 62) / 256 % 256] := by
  simp only [decodeGroups, jsLookup_i2c _ hw0, jsLookup_i2c _ hw1, jsLookup_i2c _ hw2,
    if_pos rfl, if_true, if_neg (i2c_ne_pad _ hw2)]
  rw [if_neg (by omega :
    ¬ ((w0 : Int) < 0 ∨ (w1 : Int) < 0 ∨ (w2 : Int) = -1 ∨ (-2 : Int) = -1))]
  rw [if_pos (by omega : ((w2 : Int) ≠ -2)), if_neg (by omega : ¬ ((-2 : Int) ≠ -2))]
  simp only [Int.toNat_natCast, jsAnd63_neg2, jsAnd63_cast _ hw2]
  rw [or4_eq w0 w1 w2 62 hw1 hw2 (by omega)]
  rw [Nat.shiftRight_eq_div_pow, Nat.shiftRight_eq_div_pow, and255_eq, and255_eq]
  norm_num

theorem decodeGroups_g3 (w0 w1 w2 w3 : Nat) (hw0 : w0 < 64) (hw1 : w1 < 64)
    (hw2 : w2 < 64) (hw3 : w3 < 64) (rest : List Char) (tl : List Nat)
    (hrest : decodeGroups rest = .ok tl) :
    decodeGroups (i2c w0 :: i2c w1 :: i2c w2 :: i2c w3 :: rest) =
      .ok ((w0 * 262144 + w1 * 4096 + w2 * 64 + w3) / 65536 % 256 ::
           (w0 * 262144 + w1 * 4096 + w2 * 64 + w3) / 256 % 256 ::
           (w0 * 262144 + w1 * 4096 + w2 * 64 + w3) % 256 :: tl) := by
  simp only [decodeGroups, jsLookup_i2c _ hw0, jsLookup_i2c _ hw1, jsLookup_i2c _ hw2,
    jsLookup_i2c _ hw3, if_neg (i2c_ne_pad _ hw2), if_neg (i2c_ne_pad _ hw3)]
  rw [if_neg (by omega :
    ¬ ((w0 : Int) < 0 ∨ (w1 : Int) < 0 ∨ (w2 : Int) = -1 ∨ (w3 : Int) = -1))]
  rw [if_pos (by omega : ((w2 : Int) ≠ -2)), if_pos (by omega : ((w3 : Int) ≠ -2))]
  simp only [Int.toNat_natCast, jsAnd63_cast _ hw2, jsAnd63_cast _ hw3]
  rw [or4_eq w0 w1 w2 w3 hw1 hw2 hw3, hrest]
  rw [Nat.shiftRight_eq_div_pow, Nat.shiftRight_eq_div_pow, and255_eq, and255_eq, and255_eq]
  norm_num

/-- Decoding the encoded form of a byte list recovers the bytes
(group-level statement, on the raw character list). -/
theorem decodeGroups_encodeChars : ∀ B : List Nat, (∀ b ∈ B, b < 256) →
    decodeGroups (encodeChars B) = .ok B := by
  intro B
  induction B using encodeChars.induct with
  | case1 => intro _; rfl
  | case2 b0 =>
    intro h
    have hb0 : b0 < 256 := h b0 (by simp)
    show decodeGroups [i2c ((b0 >>> 2) &&& 63), i2c ((b0 &&& 3) <<< 4), '=', '='] = .ok [b0]
    rw [decodeGroups_g1 _ _ (and63_lt _) (and3_shl4_lt _)]
    simp only [Nat.shiftRight_eq_div_pow, and63_eq, and3_eq, Nat.shiftLeft_eq,
      Except.ok.injEq, List.cons.injEq, and_true]
    norm_num
    omega
  | case3 b0 b1 =>
    intro h
    have hb0 : b0 < 256 := h b0 (by simp)
    have hb1 : b1 < 256 := h b1 (by simp)
    show decodeGroups [i2c ((((b0 <<< 8) ||| b1) >>> 10) &&& 63),
      i2c ((((b0 <<< 8) ||| b1) >>> 4) &&& 63),
      i2c ((((b0 <<< 8) ||| b1) &&& 15) <<< 2), '='] = .ok [b0, b1]
    rw [decodeGroups_g2 _ _ _ (and63_lt _) (and63_lt _) (and15_shl2_lt _)]
    rw [or2_eq b0 b1 hb1]
    simp only [Nat.shiftRight_eq_div_pow, and63_eq, and15_eq, Nat.shiftLeft_eq,
      Except.ok.injEq, List.cons.injEq, and_true]
    norm_num
    omega
  | case4 b0 b1 b2 rest ih =>
    intro h
    have hb0 : b0 < 256 := h b0 (by simp)
    have hb1 : b1 < 256 := h b1 (by simp)
    have hb2 : b2 < 256 := h b2 (by simp)
    have hrest : decodeGroups (encodeChars rest) = .ok rest := by
      apply ih
      intro b hb
      exact h b (by simp [hb])
    show decodeGroups (i2c ((((b0 <<< 16) ||| (b1 <<< 8) ||| b2) >>> 18) &&& 63) ::
      i2c ((((b0 <<< 16) ||| (b1 <<< 8) ||| b2) >>> 12) &&& 63) ::
      i2c ((((b0 <<< 16) ||| (b1 <<< 8) ||| b2) >>> 6) &&& 63) ::
      i2c (((b0 <<< 16) ||| (b1 <<< 8) ||| b2) &&& 63) :: encodeChars rest) =
      .ok (b0 :: b1 :: b2 :: rest)
    rw [decodeGroups_g3 _ _ _ _ (and63_lt _) (and63_lt _) (and63_lt _) (and63_lt _)
      (encodeChars rest) rest hrest]
    rw [or3_eq b0 b1 b2 hb1 hb2]
    simp only [Nat.shiftRight_eq_div_pow, and63_eq, Except.ok.injEq, List.cons.injEq, and_true]
    norm_num
    omega

/-- The round-trip law at the level of `decodeBase64`/`encodeBase64`,
shared by the claims about the Codec and about the Image Resolver. -/
theorem decode_encode_ok (B : List Nat) (hB : ∀ b ∈ B, b < 256) :
    decodeBase64 (encodeBase64 B) = .ok B := by
  rcases Decidable.em (B = []) with hBe | hBe
  · subst hBe; rfl
  · have hBlen : B.length ≠ 0 := fun hh => hBe (List.length_eq_zero.mp hh)
    have hlen := encodeChars_length B
    show decodeBase64 ⟨encodeChars B⟩ = .ok B
    simp only [decodeBase64]
    rw [encodeChars_filter]
    rw [if_neg (by omega : ¬ ((encodeChars B).length = 0))]
    rw [if_pos (by omega : (encodeChars B).length % 4 = 0)]
    rw [if_neg (by omega : ¬ ((encodeChars B).length % 4 ≠ 0))]
    simp only [decodeGroups_encodeChars B hB]
    rw [padOf_encodeChars B hBe]
    have houtLen : (encodeChars B).length / 4 * 3 -
        (if B.length % 3 = 0 then 0 else if B.length % 3 = 1 then 2 else 1) = B.length := by
      by_cases h0 : B.length % 3 = 0
      · rw [if_pos h0]; omega
      · rw [if_neg h0]
        by_cases h1 : B.length % 3 = 1
        · rw [if_pos h1]; omega
        · rw [if_neg h1]; omega
    rw [houtLen, List.take_length]
    simp

/- ================= Decode error-path lemmas ================= -/

theorem decodeGroups_error_invalid : ∀ (l : List Char) (e : Err),
    decodeGroups l = .error e → e = .invalidCharacter
  | c0 :: c1 :: c2 :: c3 :: rest, e => by
    intro h
    simp only [decodeGroups] at h
    by_cases hg : jsLookup c0 < 0 ∨ jsLookup c1 < 0 ∨
        (if c2 = '=' then (-2 : Int) else jsLookup c2) = -1 ∨
        (if c3 = '=' then (-2 : Int) else jsLookup c3) = -1
    · rw [if_pos hg] at h
      injection h with h
      exact h.symm
    · rw [if_neg hg] at h
      cases hres : decodeGroups rest with
      | error e2 =>
        simp only [hres] at h
        injection h with h
        subst h
        exact decodeGroups_error_invalid rest e2 hres
      | ok tl =>
        simp only [hres] at h
        exact absurd h (by simp)
  | [], e => by intro h; exact nomatch h
  | [a], e => by intro h; exact nomatch h
  | [a, b], e => by intro h; exact nomatch h
  | [a, b, c], e => by intro h; exact nomatch h

theorem decodeGroups_bytes_lt : ∀ (l : List Char) (r : List Nat),
    decodeGroups l = .ok r → ∀ b ∈ r, b < 256
  | c0 :: c1 :: c2 :: c3 :: rest, r => by
    intro h b hb
    simp only [decodeGroups] at h
    by_cases hg : jsLookup c0 < 0 ∨ jsLookup c1 < 0 ∨
        (if c2 = '=' then (-2 : Int) else jsLookup c2) = -1 ∨
        (if c3 = '=' then (-2 : Int) else jsLookup c3) = -1
    · rw [if_pos hg] at h
      exact absurd h (by simp)
    · rw [if_neg hg] at h
      cases hres : decodeGroups rest with
      | error e2 =>
        simp only [hres] at h
        exact absurd h (by simp)
      | ok tl =>
        simp only [hres] at h
        injection h with h
        subst h
        simp only [List.append_assoc, List.mem_append, List.mem_singleton] at hb
        rcases hb with hb | hb | hb | hb
        · subst hb
          rw [and255_eq]
          omega
        · by_cases hv : ((if c2 = '=' then (-2 : Int) else jsLookup c2) ≠ -2)
          · rw [if_pos hv] at hb
            simp only [List.mem_singleton] at hb
            subst hb
            rw [and255_eq]
            omega
          · rw [if_neg hv] at hb
            exact absurd hb (by simp)
        · by_cases hv : ((if c3 = '=' then (-2 : Int) else jsLookup c3) ≠ -2)
          · rw [if_pos hv] at hb
            simp only [List.mem_singleton] at hb
            subst hb
            rw [and255_eq]
            omega
          · rw [if_neg hv] at hb
            exact absurd hb (by simp)
        · exact decodeGroups_bytes_lt rest tl hres b hb
  | [], r => by
    intro h b hb
    injection h with h
    subst h
    exact absurd hb (by simp)
  | [a], r => by
    intro h b hb
    injection h with h
    subst h
    exact absurd hb (by simp)
  | [a, b2], r => by
    intro h b hb
    injection h with h
    subst h
    exact absurd hb (by simp)
  | [a, b2, c], r => by
    intro h b hb
    injection h with h
    subst h
    exact absurd hb (by simp)

theorem bad_char_error : ∀ (l : List Char) (c : Char), c ∈ l →
    jsLookup c = -1 → c ≠ '=' → l.length % 4 = 0 →
    decodeGroups l = .error .invalidCharacter
  | c0 :: c1 :: c2 :: c3 :: rest, c => by
    intro hc hlk hne hlen
    simp only [decodeGroups]
    simp only [List.mem_cons] at hc
    rcases hc with hc | hc | hc | hc | hc
    · subst hc
      rw [if_pos (Or.inl (by rw [hlk]; decide))]
    · subst hc
      rw [if_pos (Or.inr (Or.inl (by rw [hlk]; decide)))]
    · subst hc
      rw [if_pos (Or.inr (Or.inr (Or.inl (by rw [if_neg hne, hlk]))))]
    · subst hc
      rw [if_pos (Or.inr (Or.inr (Or.inr (by rw [if_neg hne, hlk]))))]
    · have hrest : rest.length % 4 = 0 := by
        simp only [List.length_cons] at hlen
        omega
      by_cases hg : jsLookup c0 < 0 ∨ jsLookup c1 < 0 ∨
          (if c2 = '=' then (-2 : Int) else jsLookup c2) = -1 ∨
          (if c3 = '=' then (-2 : Int) else jsLookup c3) = -1
      · rw [if_pos hg]
      · rw [if_neg hg]
        rw [bad_char_error rest c hc hlk hne hrest]
  | [], c => by
    intro hc _ _ _
    exact absurd hc (by simp)
  | [a], c => by
    intro _ _ _ hlen
    simp at hlen
  | [a, b], c => by
    intro _ _ _ hlen
    simp at hlen
  | [a, b, d], c => by
    intro _ _ _ hlen
    simp at hlen

theorem pad_pos_error : ∀ (l : List Char) (k : Nat), l.length % 4 = 0 →
    (l[4 * k]? = some '=' ∨ l[4 * k + 1]? = some '=') →
    decodeGroups l = .error .invalidCharacter
  | c0 :: c1 :: c2 :: c3 :: rest, k => by
    intro hlen hpos
    simp only [decodeGroups]
    rcases k with _ | k
    · simp only [Nat.mul_zero, List.getElem?_cons_zero, Nat.zero_add,
        List.getElem?_cons_succ, Option.some.injEq] at hpos
      rcases hpos with hp | hp
      · rw [if_pos (Or.inl (by rw [hp, jsLookup_pad]; decide))]
      · rw [if_pos (Or.inr (Or.inl (by rw [hp, jsLookup_pad]; decide)))]
    · have hrest : rest.length % 4 = 0 := by
        simp only [List.length_cons] at hlen
        omega
      have hpos2 : rest[4 * k]? = some '=' ∨ rest[4 * k + 1]? = some '=' := by
        rcases hpos with hp | hp
        · left
          rw [(by ring : 4 * (k + 1) = (4 * k + 3) + 1), List.getElem?_cons_succ] at hp
          rw [(by ring : 4 * k + 3 = (4 * k + 2) + 1), List.getElem?_cons_succ] at hp
          rw [(by ring : 4 * k + 2 = (4 * k + 1) + 1), List.getElem?_cons_succ] at hp
          rw [List.getElem?_cons_succ] at hp
          exact hp
        · right
          rw [(by ring : 4 * (k + 1) + 1 = (4 * k + 4) + 1), List.getElem?_cons_succ] at hp
          rw [(by ring : 4 * k + 4 = (4 * k + 3) + 1), List.getElem?_cons_succ] at hp
          rw [(by ring : 4 * k + 3 = (4 * k + 2) + 1), List.getElem?_cons_succ] at hp
          rw [(by ring : 4 * k + 2 = (4 * k + 1) + 1), List.getElem?_cons_succ] at hp
          exact hp
      by_cases hg : jsLookup c0 < 0 ∨ jsLookup c1 < 0 ∨
          (if c2 = '=' then (-2 : Int) else jsLookup c2) = -1 ∨
          (if c3 = '=' then (-2 : Int) else jsLookup c3) = -1
      · rw [if_pos hg]
      · rw [if_neg hg]
        rw [pad_pos_error rest k hrest hpos2]
  | [], k => by
    intro _ hpos
    rcases hpos with hp | hp <;> exact absurd hp (by simp)
  | [a], k => by
    intro hlen _
    simp at hlen
  | [a, b], k => by
    intro hlen _
    simp at hlen
  | [a, b, c], k => by
    intro hlen _
    simp at hlen

theorem len1mod_error : ∀ (l : List Char), l.length % 4 = 1 →
    decodeGroups (l ++ ['=', '=', '=']) = .error .invalidCharacter
  | [], h => by simp at h
  | [a], _ => by
    show decodeGroups [a, '=', '=', '='] = .error .invalidCharacter
    simp only [decodeGroups]
    rw [if_pos (Or.inr (Or.inl (by rw [jsLookup_pad]; decide)))]
  | [a, b], h => by simp at h
  | [a, b, c], h => by simp at h
  | a :: b :: c :: d :: t, h => by
    have ht : t.length % 4 = 1 := by
      simp only [List.length_cons] at h
      omega
    show decodeGroups (a :: b :: c :: d :: (t ++ ['=', '=', '='])) = .error .invalidCharacter
    simp only [decodeGroups]
    by_cases hg : jsLookup a < 0 ∨ jsLookup b < 0 ∨
        (if c = '=' then (-2 : Int) else jsLookup c) = -1 ∨
        (if d = '=' then (-2 : Int) else jsLookup d) = -1
    · rw [if_pos hg]
    · rw [if_neg hg]
      rw [len1mod_error t ht]

theorem decodeBase64_groups_error (s : String) (cl : List Char) (e : Err)
    (hcl : s.data.filter (fun c => ! isJsWhitespace c) = cl)
    (h0 : cl.length ≠ 0)
    (hdg : decodeGroups (if cl.length % 4 = 0 then cl
        else cl ++ List.replicate (4 - cl.length % 4) '=') = .error e) :
    decodeBase64 s = .error e := by
  simp only [decodeBase64, hcl]
  rw [if_neg h0]
  have hp4 : (if cl.length % 4 = 0 then cl
      else cl ++ List.replicate (4 - cl.length % 4) '=').length % 4 = 0 := by
    by_cases hmd : cl.length % 4 = 0
    · rw [if_pos hmd]; exact hmd
    · rw [if_neg hmd]
      simp only [List.length_append, List.length_replicate]
      omega
  rw [if_neg (by omega : ¬ ((if cl.length % 4 = 0 then cl
      else cl ++ List.replicate (4 - cl.length % 4) '=').length % 4 ≠ 0))]
  simp only [hdg]

theorem decodeBase64_groups_ok (s : String) (cl : List Char) (written : List Nat)
    (hcl : s.data.filter (fun c => ! isJsWhitespace c) = cl)
    (h0 : cl.length ≠ 0)
    (hdg : decodeGroups (if cl.length % 4 = 0 then cl
        else cl ++ List.replicate (4 - cl.length % 4) '=') = .ok written) :
    ∃ r, decodeBase64 s = .ok r := by
  simp only [decodeBase64, hcl]
  rw [if_neg h0]
  have hp4 : (if cl.length % 4 = 0 then cl
      else cl ++ List.replicate (4 - cl.length % 4) '=').length % 4 = 0 := by
    by_cases hmd : cl.length % 4 = 0
    · rw [if_pos hmd]; exact hmd
    · rw [if_neg hmd]
      simp only [List.length_append, List.length_replicate]
      omega
  rw [if_neg (by omega : ¬ ((if cl.length % 4 = 0 then cl
      else cl ++ List.replicate (4 - cl.length % 4) '=').length % 4 ≠ 0))]
  simp only [hdg]
  exact ⟨_, rfl⟩

theorem decodeBase64_shape (s : String) :
    (∃ r, decodeBase64 s = .ok r) ∨ decodeBase64 s = .error .invalidCharacter := by
  by_cases h0 : (s.data.filter (fun c => ! isJsWhitespace c)).length = 0
  · left
    exact ⟨[], by simp only [decodeBase64]; rw [if_pos h0]⟩
  · rcases hdg : decodeGroups (if (s.data.filter (fun c => ! isJsWhitespace c)).length % 4 = 0
        then s.data.filter (fun c => ! isJsWhitespace c)
        else s.data.filter (fun c => ! isJsWhitespace c) ++
          List.replicate (4 - (s.data.filter (fun c => ! isJsWhitespace c)).length % 4) '=')
      with he | hw
    · right
      have := decodeGroups_error_invalid _ _ hdg
      subst this
      exact decodeBase64_groups_error s _ _ rfl h0 hdg
    · left
      exact decodeBase64_groups_ok s _ _ rfl h0 hdg

theorem decodeBase64_bytes_lt (s : String) (r : List Nat)
    (h : decodeBase64 s = .ok r) : ∀ b ∈ r, b < 256 := by
  intro b hb
  simp only [decodeBase64] at h
  by_cases h0 : (s.data.filter (fun c => ! isJsWhitespace c)).length = 0
  · rw [if_pos h0] at h
    injection h with h
    subst h
    exact absurd hb (by simp)
  · rw [if_neg h0] at h
    generalize hpd : (if (s.data.filter (fun c => ! isJsWhitespace c)).length % 4 = 0 then
        s.data.filter (fun c => ! isJsWhitespace c)
      else s.data.filter (fun c => ! isJsWhitespace c) ++
        List.replicate (4 - (s.data.filter (fun c => ! isJsWhitespace c)).length % 4) '=') =
      pl at h
    by_cases hq : pl.length % 4 ≠ 0
    · rw [if_pos hq] at h
      exact absurd h (by simp)
    · rw [if_neg hq] at h
      cases hdg : decodeGroups pl with
      | error e =>
        simp only [hdg] at h
        exact absurd h (by simp)
      | ok written =>
        simp only [hdg] at h
        injection h with h
        subst h
        rcases List.mem_append.mp hb with hb2 | hb2
        · exact decodeGroups_bytes_lt pl written hdg b (List.mem_of_mem_take hb2)
        · rw [List.eq_of_mem_replicate hb2]
          omega

/- ================= Bounded Fetcher lemmas ================= -/

theorem readChunks_err (mb : Nat) : ∀ (chunks : List (List Nat)) (t : Nat) (e : Err),
    readChunks mb chunks t = .error e → e = .tooLarge := by
  intro chunks
  induction chunks with
  | nil =>
    intro t e h
    exact absurd h (by simp [readChunks])
  | cons c cs ih =>
    intro t e h
    simp only [readChunks] at h
    split at h
    · injection h with h
      exact h.symm
    · split at h
      · next e2 heq =>
        injection h with h
        subst h
        exact ih _ _ heq
      · exact absurd h (by simp)

theorem readChunks_ok_eq (mb : Nat) : ∀ (chunks : List (List Nat)) (t : Nat) (ks : List (List Nat)),
    readChunks mb chunks t = .ok ks → ks = chunks := by
  intro chunks
  induction chunks with
  | nil =>
    intro t ks h
    simp only [readChunks] at h
    injection h with h
    exact h.symm
  | cons c cs ih =>
    intro t ks h
    simp only [readChunks] at h
    split at h
    · exact absurd h (by simp)
    · split at h
      · exact absurd h (by simp)
      · next ks2 heq =>
        injection h with h
        subst h
        rw [ih _ _ heq]

theorem readChunks_exceeds (mb : Nat) : ∀ (chunks rest : List (List Nat)) (t : Nat),
    t ≤ mb → mb < t + (chunks.map List.length).sum →
    readChunks mb (chunks ++ rest) t = .error .tooLarge := by
  intro chunks
  induction chunks with
  | nil =>
    intro rest t hle hlt
    simp only [List.map_nil, List.sum_nil] at hlt
    omega
  | cons c cs ih =>
    intro rest t hle hlt
    simp only [List.cons_append, readChunks]
    by_cases hc : mb < t + c.length
    · rw [if_pos hc]
    · rw [if_neg hc]
      simp only [List.append_eq]
      simp only [List.map_cons, List.sum_cons] at hlt
      rw [ih rest (t + c.length) (by omega) (by omega)]

theorem readResponseBytesWithLimit_err (hdr : Option String) (body : Option (List (List Nat)))
    (mb : Nat) (e : Err) (h : readResponseBytesWithLimit hdr body mb = .error e) :
    e = .tooLarge := by
  simp only [readResponseBytesWithLimit] at h
  split at h
  · injection h with h
    exact h.symm
  · split at h
    · exact absurd h (by simp)
    · split at h
      · next e2 heq =>
        injection h with h
        subst h
        exact readChunks_err mb _ _ _ heq
      · exact absurd h (by simp)

/- ================= Resolver lemmas ================= -/

theorem ctValid_startsWith (ct : Option String) (h : ctValid ct = true) :
    jsStartsWith (ct.getD "") "image/" = true := by
  cases ct with
  | none => exact absurd h (by simp [ctValid])
  | some c =>
    simp only [ctValid, Bool.and_eq_true] at h
    simpa [Option.getD] using h.2

theorem parseDataUrlToBytes_ok (url mime : String) (bytes : List Nat)
    (h : parseDataUrlToBytes url = .ok (mime, bytes)) :
    jsStartsWith mime "image/" = true ∧ ∀ b ∈ bytes, b < 256 := by
  cases hcm : url.data.findIdx? (fun c => c == ',') with
  | none =>
    simp only [parseDataUrlToBytes, hcm] at h
    exact nomatch h
  | some comma =>
    simp only [parseDataUrlToBytes, hcm] at h
    cases hb : dataUrlIsB64 (String.mk ((url.data.drop 5).take (comma - 5))) with
    | false =>
      rw [if_pos (by rw [hb]; rfl)] at h
      exact nomatch h
    | true =>
      rw [if_neg (by rw [hb]; simp)] at h
      cases hm : jsStartsWith (dataUrlMime (String.mk ((url.data.drop 5).take (comma - 5))))
          "image/" with
      | false =>
        rw [if_pos (by rw [hm]; rfl)] at h
        exact nomatch h
      | true =>
        rw [if_neg (by rw [hm]; simp)] at h
        cases hdec : decodeBase64 (String.mk (url.data.drop (comma + 1))) with
        | error e =>
          simp only [hdec] at h
          exact nomatch h
        | ok bs =>
          simp only [hdec] at h
          injection h with h
          injection h with h1 h2
          subst h1
          subst h2
          exact ⟨hm, decodeBase64_bytes_lt _ _ hdec⟩

theorem readResponseBytesWithLimit_ok_bytes (hdr : Option String)
    (body : Option (List (List Nat))) (mb : Nat) (bytes : List Nat)
    (h : readResponseBytesWithLimit hdr body mb = .ok bytes)
    (hwf : ∀ chunks, body = some chunks → ∀ ch ∈ chunks, ∀ b ∈ ch, b < 256) :
    ∀ b ∈ bytes, b < 256 := by
  simp only [readResponseBytesWithLimit] at h
  cases hrej : clRejects hdr mb with
  | true =>
    rw [if_pos (by rw [hrej])] at h
    exact nomatch h
  | false =>
    rw [if_neg (by rw [hrej]; simp)] at h
    cases body with
    | none =>
      injection h with h
      subst h
      intro b hb
      exact absurd hb (by simp)
    | some chunks =>
      cases hrc : readChunks mb chunks 0 with
      | error e =>
        simp only [hrc] at h
        exact nomatch h
      | ok ks =>
        simp only [hrc] at h
        injection h with h
        subst h
        intro b hb
        rw [readChunks_ok_eq mb chunks 0 ks hrc] at hb
        obtain ⟨ch, hch, hbch⟩ := List.mem_flatten.mp hb
        exact hwf chunks rfl ch hch b hbch

/-- The fetch-oracle wellformedness of the byte model: every body chunk
byte is an actual octet (`Uint8Array` entries are below 256). -/
def WellFormedFetch (f : FetchOutcome) : Prop :=
  ∀ chunks, f.body = some chunks → ∀ ch ∈ chunks, ∀ b ∈ ch, b < 256

/- ================= Claim theorems ================= -/

/-- C2: for every byte sequence B (empty included, every length residue
mod 3 included), `decodeBase64 (encodeBase64 B) = B` — the Codec
round-trip law. -/
theorem claim_C2 (B : List Nat) (hB : ∀ b ∈ B, b < 256) :
    decodeBase64 (encodeBase64 B) = .ok B :=
  decode_encode_ok B hB

theorem claim_C2_witness :
    (∀ b ∈ [77, 255, 0, 1, 2], b < 256) ∧
      decodeBase64 (encodeBase64 [77, 255, 0, 1, 2]) = .ok [77, 255, 0, 1, 2] :=
  ⟨by decide, claim_C2 [77, 255, 0, 1, 2] (by decide)⟩

/-- C4: the Bounded Fetcher fails `TooLarge` (1) without reading any body
chunk when a non-empty `content-length` header parses to a value above
the ceiling — the conclusion holds for every body, so no part of it is
consumed — and (2) whenever the declared-length check passes (header
absent, unparsable, or understating) but the cumulative chunk bytes
exceed the ceiling — the conclusion holds for every suffix `rest` beyond
the exceeding prefix, so the read stops after partial consumption. -/
theorem claim_C4 :
    (∀ (h : String) (d : Int) (body : Option (List (List Nat))) (C : Nat),
      h ≠ "" → jsParseInt h = some d → (C : Int) < d →
      readResponseBytesWithLimit (some h) body C = .error .tooLarge)
    ∧ (∀ (hdr : Option String) (chunks rest : List (List Nat)) (C : Nat),
      clRejects hdr C = false → C < (chunks.map List.length).sum →
      readResponseBytesWithLimit hdr (some (chunks ++ rest)) C = .error .tooLarge) := by
  constructor
  · intro h d body C hne hparse hgt
    have hrej : clRejects (some h) C = true := by
      simp only [clRejects]
      rw [if_neg hne, hparse]
      exact decide_eq_true hgt
    simp only [readResponseBytesWithLimit]
    rw [if_pos hrej]
  · intro hdr chunks rest C hcl hsum
    simp only [readResponseBytesWithLimit]
    rw [if_neg (by rw [hcl]; simp)]
    rw [readChunks_exceeds C chunks rest 0 (by omega) (by omega)]

theorem claim_C4_witness :
    readResponseBytesWithLimit (some "52428800") (some [[1, 2, 3]]) 10485760 =
      .error .tooLarge
    ∧ readResponseBytesWithLimit none (some ([[1, 2, 3], [4, 5]] ++ [[6]])) 4 =
      .error .tooLarge :=
  ⟨claim_C4.1 "52428800" 52428800 (some [[1, 2, 3]]) 10485760 (by decide) (by decide)
      (by decide),
   claim_C4.2 none [[1, 2, 3], [4, 5]] [[6]] 4 (by decide) (by decide)⟩

/-- C9 (amended): in `passthrough` mode `prepareImagesForUpstream` returns
exactly the entries whose whitespace-trimmed form is non-empty, in their
original order, for every URL-parse and fetch oracle — so `resolveImage`
is never invoked and the SSRF guard, byte ceiling and time budget are not
applied to any caller-supplied reference. -/
theorem claim_C9 (imageUrls : List String) (fmt : ImageBase64Format) (maxBytes : Nat)
    (apn : Bool) (parse : String → Option UrlParts) (fetch : String → FetchOutcome) :
    prepareImagesForUpstream imageUrls ImageInputMode.passthrough fmt maxBytes apn parse fetch =
      .ok (imageUrls.filter (fun u => jsTrim u ≠ "")) := by
  simp only [prepareImagesForUpstream]
  by_cases h0 : imageUrls.length = 0
  · rw [if_pos h0, List.length_eq_zero.mp h0]
    rfl
  · rw [if_neg h0]
    simp

theorem claim_C9_counterexample :
    prepareImagesForUpstream [" "] ImageInputMode.passthrough ImageBase64Format.data_url 0 false
      (fun _ => none) (fun _ => ⟨false, none, none, none⟩) = .ok []
    ∧ (" " : String) ≠ "" := by
  constructor
  · decide
  · decide

/-- C10: `extractImages` probes the top-level `output_images` field twice
in its fixed probe order, so the field's valid references appear once
before and once after the nested-`output` probes (order preserved); for a
payload whose only populated probe location is a top-level
`output_images` with n valid references, the extraction output is exactly
those references twice — 2n entries. -/
theorem claim_C10 :
    (∀ (p : MSPayload) (arr : List ImgVal), p.output_images = some arr →
      extractImages p =
        ((arr.map pushAny).flatten.filter isKept)
          ++ ((tryArray (p.output.bind MSOutput.output_images)).filter isKept
              ++ (tryArray (p.output.bind MSOutput.images)).filter isKept)
          ++ ((arr.map pushAny).flatten.filter isKept)
          ++ ((tryArray p.images).filter isKept ++ (tryArray p.data).filter isKept
              ++ (pushAnyOpt p.output_image).filter isKept
              ++ (pushAnyOpt (p.output.bind MSOutput.output_image)).filter isKept
              ++ (pushAnyOpt (p.output.bind MSOutput.image)).filter isKept))
    ∧ (∀ arr : List ImgVal,
      extractImages { output_images := some arr } =
          ((arr.map pushAny).flatten.filter isKept)
            ++ ((arr.map pushAny).flatten.filter isKept)
        ∧ (extractImages { output_images := some arr }).length =
            2 * ((arr.map pushAny).flatten.filter isKept).length) := by
  have base : ∀ (p : MSPayload) (arr : List ImgVal), p.output_images = some arr →
      extractImages p =
        ((arr.map pushAny).flatten.filter isKept)
          ++ ((tryArray (p.output.bind MSOutput.output_images)).filter isKept
              ++ (tryArray (p.output.bind MSOutput.images)).filter isKept)
          ++ ((arr.map pushAny).flatten.filter isKept)
          ++ ((tryArray p.images).filter isKept ++ (tryArray p.data).filter isKept
              ++ (pushAnyOpt p.output_image).filter isKept
              ++ (pushAnyOpt (p.output.bind MSOutput.output_image)).filter isKept
              ++ (pushAnyOpt (p.output.bind MSOutput.image)).filter isKept) := by
    intro p arr hp
    simp only [extractImages, hp, tryArray, List.filter_append, List.append_assoc]
  refine ⟨base, ?_⟩
  intro arr
  have h := base { output_images := some arr } arr rfl
  simp only [Option.none_bind, tryArray, pushAnyOpt, List.filter_nil, List.append_nil,
    List.nil_append] at h
  exact ⟨h, by rw [h, List.length_append]; omega⟩

theorem claim_C10_witness :
    extractImages { output_images := some [ImgVal.str "u"] } =
      [⟨some "u", none⟩, ⟨some "u", none⟩] := by
  have h := (claim_C10.1 { output_images := some [ImgVal.str "u"] } [ImgVal.str "u"] rfl)
  rw [h]
  decide

/-- C1: with private-network access disallowed, `resolveImage` on a remote
http/https URL whose hostname the Network-Address Guard classifies as
private fails `blockedBySsrfPolicy` for every fetch oracle (no network
fetch is consulted), and the ModelScope image-edit path with such a
reference image fails the same way for every submit/poll oracle (it fails
before any submission network call). -/
theorem claim_C1 :
    (∀ (url : String) (u : UrlParts) (maxBytes : Nat) (f : FetchOutcome),
      isPrivateIp u.hostname = true →
      (jsToLower u.protocol = "http:" ∨ jsToLower u.protocol = "https:") →
      jsTrim url ≠ "" → isDataUrl url = false →
      resolveImage url maxBytes false (some u) f = .error .blockedBySsrfPolicy)
    ∧ (∀ (img : String) (rest : List String) (u : UrlParts) (maxBytes : Nat)
        (parse : String → Option UrlParts) (f : FetchOutcome) (o : MSOracles),
      parse img = some u → isPrivateIp u.hostname = true →
      (jsToLower u.protocol = "http:" ∨ jsToLower u.protocol = "https:") →
      jsTrim img ≠ "" → isDataUrl img = false →
      handleModelScopeEdit (img :: rest) maxBytes false parse f o =
        .error .blockedBySsrfPolicy) := by
  have hassert : ∀ (u : UrlParts), isPrivateIp u.hostname = true →
      (jsToLower u.protocol = "http:" ∨ jsToLower u.protocol = "https:") →
      assertAllowedRemoteUrl u false = some Err.blockedBySsrfPolicy := by
    intro u hpriv hproto
    simp only [assertAllowedRemoteUrl]
    rcases hproto with hp | hp <;> rw [hp] <;> simp [hpriv]
  have base : ∀ (url : String) (u : UrlParts) (maxBytes : Nat) (f : FetchOutcome),
      isPrivateIp u.hostname = true →
      (jsToLower u.protocol = "http:" ∨ jsToLower u.protocol = "https:") →
      jsTrim url ≠ "" → isDataUrl url = false →
      resolveImage url maxBytes false (some u) f = .error .blockedBySsrfPolicy := by
    intro url u maxBytes f hpriv hproto htrim hdata
    simp only [resolveImage]
    rw [if_neg htrim]
    rw [if_neg (by rw [hdata]; simp : ¬ (isDataUrl url = true))]
    simp only [hassert u hpriv hproto]
  refine ⟨base, ?_⟩
  intro img rest u maxBytes parse f o hparse hpriv hproto htrim hdata
  simp only [handleModelScopeEdit, hparse]
  rw [base img u maxBytes f hpriv hproto htrim hdata]

theorem claim_C1_witness :
    resolveImage "http://192.168.1.5/ref.png" 10485760 false
      (some ⟨"http:", "192.168.1.5"⟩) ⟨true, some "image/png", none, some [[1, 2]]⟩ =
      .error .blockedBySsrfPolicy
    ∧ handleModelScopeEdit ["http://192.168.1.5/ref.png"] 10485760 false
      (fun _ => some ⟨"http:", "192.168.1.5"⟩) ⟨true, some "image/png", none, some [[1, 2]]⟩
      ⟨SubmitOutcome.accepted (some "t") {}, fun _ => PollAttempt.response "PENDING" {}⟩ =
      .error .blockedBySsrfPolicy :=
  ⟨claim_C1.1 "http://192.168.1.5/ref.png" ⟨"http:", "192.168.1.5"⟩ 10485760
      ⟨true, some "image/png", none, some [[1, 2]]⟩ (by decide) (Or.inl (by decide))
      (by decide) (by decide),
   claim_C1.2 "http://192.168.1.5/ref.png" [] ⟨"http:", "192.168.1.5"⟩ 10485760
      (fun _ => some ⟨"http:", "192.168.1.5"⟩) ⟨true, some "image/png", none, some [[1, 2]]⟩
      ⟨SubmitOutcome.accepted (some "t") {}, fun _ => PollAttempt.response "PENDING" {}⟩
      rfl (by decide) (Or.inl (by decide)) (by decide) (by decide)⟩

/-- C8: `isPrivateIp` classifies the IPv4-mapped IPv6 loopback literal
`::ffff:127.0.0.1` as public — it matches neither the dotted-quad IPv4
patterns nor the textual IPv6 checks — so `assertAllowedRemoteUrl` passes
it and `resolveImage` never fails `blockedBySsrfPolicy` for that host,
even with private-network access disallowed. -/
theorem claim_C8 :
    isPrivateIp "::ffff:127.0.0.1" = false
    ∧ assertAllowedRemoteUrl ⟨"http:", "::ffff:127.0.0.1"⟩ false = none
    ∧ (∀ (maxBytes : Nat) (f : FetchOutcome),
        resolveImage "http://[::ffff:127.0.0.1]/a.png" maxBytes false
          (some ⟨"http:", "::ffff:127.0.0.1"⟩) f ≠ .error .blockedBySsrfPolicy) := by
  refine ⟨by decide, by decide, ?_⟩
  intro maxBytes f h
  simp only [resolveImage] at h
  rw [if_neg (by decide : ¬ (jsTrim "http://[::ffff:127.0.0.1]/a.png" = ""))] at h
  rw [if_neg (by decide : ¬ (isDataUrl "http://[::ffff:127.0.0.1]/a.png" = true))] at h
  rw [show assertAllowedRemoteUrl ⟨"http:", "::ffff:127.0.0.1"⟩ false = none from by decide] at h
  cases hok : f.ok with
  | false =>
    rw [if_pos (by rw [hok]; rfl)] at h
    exact nomatch h
  | true =>
    rw [if_neg (by rw [hok]; simp)] at h
    cases hcv : ctValid (f.contentType.bind normalizeMime) with
    | false =>
      rw [if_pos (by rw [hcv]; rfl)] at h
      exact nomatch h
    | true =>
      rw [if_neg (by rw [hcv]; simp)] at h
      cases hrr : readResponseBytesWithLimit f.contentLengthHeader f.body maxBytes with
      | error e =>
        simp only [hrr] at h
        injection h with h
        rw [readResponseBytesWithLimit_err _ _ _ _ hrr] at h
        exact nomatch h
      | ok bytes =>
        simp only [hrr] at h
        exact nomatch h

theorem claim_C8_witness :
    resolveImage "http://[::ffff:127.0.0.1]/a.png" 100 false
      (some ⟨"http:", "::ffff:127.0.0.1"⟩) ⟨true, some "image/png", none, some [[1]]⟩ ≠
      .error .blockedBySsrfPolicy :=
  claim_C8.2.2 100 ⟨true, some "image/png", none, some [[1]]⟩

/-- C5 (amended): after whitespace stripping, any character that the
256-entry lookup table rejects (`jsLookup c = -1`: char code below 256
and outside the 64 standard symbols and the URL-safe `-`/`_`) other than
`=` makes `decodeBase64` fail `invalidCharacter`, and so does an `=` in
the first two slots of any 4-character group; but an `=` in the last two
slots of a group is accepted as a padding/skip marker even in groups
before the last — `"AA==AAAA"` decodes successfully — and a character
with code 256 or above is silently accepted as value 0 (the `Int16Array`
read is out of bounds and its `undefined` result passes every check) —
`"\u0100AAA"` decodes to three zero bytes. -/
theorem claim_C5 :
    (∀ (s : String) (c : Char), c ∈ s.data → isJsWhitespace c = false →
      jsLookup c = -1 → c ≠ '=' → decodeBase64 s = .error .invalidCharacter)
    ∧ (∀ (s : String) (k : Nat),
      ((s.data.filter (fun c => ! isJsWhitespace c))[4 * k]? = some '=' ∨
        (s.data.filter (fun c => ! isJsWhitespace c))[4 * k + 1]? = some '=') →
      decodeBase64 s = .error .invalidCharacter)
    ∧ decodeBase64 "AA==AAAA" = .ok [0, 0, 0, 0, 0, 0]
    ∧ decodeBase64 "\u0100AAA" = .ok [0, 0, 0] := by
  refine ⟨?_, ?_, by decide, by decide⟩
  · intro s c hc hws hlk hne
    have hmem : c ∈ s.data.filter (fun c => ! isJsWhitespace c) :=
      List.mem_filter.mpr ⟨hc, by rw [hws]; rfl⟩
    have h0 : (s.data.filter (fun c => ! isJsWhitespace c)).length ≠ 0 := by
      intro hl
      rw [List.length_eq_zero.mp hl] at hmem
      exact absurd hmem (by simp)
    set cl := s.data.filter (fun c => ! isJsWhitespace c) with hcl
    have hlen4 : (if cl.length % 4 = 0 then cl
        else cl ++ List.replicate (4 - cl.length % 4) '=').length % 4 = 0 := by
      by_cases hmd : cl.length % 4 = 0
      · rw [if_pos hmd]; exact hmd
      · rw [if_neg hmd]
        simp only [List.length_append, List.length_replicate]
        omega
    have hmempad : c ∈ (if cl.length % 4 = 0 then cl
        else cl ++ List.replicate (4 - cl.length % 4) '=') := by
      by_cases hmd : cl.length % 4 = 0
      · rw [if_pos hmd]; exact hmem
      · rw [if_neg hmd]; exact List.mem_append_left _ hmem
    exact decodeBase64_groups_error s cl _ hcl.symm h0
      (bad_char_error _ c hmempad hlk hne hlen4)
  · intro s k hpos
    set cl := s.data.filter (fun c => ! isJsWhitespace c) with hcl
    have h0 : cl.length ≠ 0 := by
      intro hl
      rw [List.length_eq_zero.mp hl] at hpos
      rcases hpos with hp | hp <;> exact absurd hp (by simp)
    have hlen4 : (if cl.length % 4 = 0 then cl
        else cl ++ List.replicate (4 - cl.length % 4) '=').length % 4 = 0 := by
      by_cases hmd : cl.length % 4 = 0
      · rw [if_pos hmd]; exact hmd
      · rw [if_neg hmd]
        simp only [List.length_append, List.length_replicate]
        omega
    have hidx : ∀ (i : Nat), cl[i]? = some '=' →
        (if cl.length % 4 = 0 then cl
          else cl ++ List.replicate (4 - cl.length % 4) '=')[i]? = some '=' := by
      intro i hi
      by_cases hmd : cl.length % 4 = 0
      · rw [if_pos hmd]; exact hi
      · rw [if_neg hmd]
        obtain ⟨hlt, _⟩ := List.getElem?_eq_some_iff.mp hi
        rw [List.getElem?_append_left hlt]
        exact hi
    have hpos2 : (if cl.length % 4 = 0 then cl
        else cl ++ List.replicate (4 - cl.length % 4) '=')[4 * k]? = some '=' ∨
        (if cl.length % 4 = 0 then cl
        else cl ++ List.replicate (4 - cl.length % 4) '=')[4 * k + 1]? = some '=' := by
      rcases hpos with hp | hp
      · exact Or.inl (hidx _ hp)
      · exact Or.inr (hidx _ hp)
    exact decodeBase64_groups_error s cl _ hcl.symm h0 (pad_pos_error _ k hlen4 hpos2)

theorem claim_C5_counterexample :
    decodeBase64 "AA==AAAA" = .ok (List.replicate 6 0) ∧ jsLookup '=' = -1 := by
  constructor
  · decide
  · decide

theorem claim_C5_witness :
    decodeBase64 "AB*C" = .error .invalidCharacter
    ∧ decodeBase64 "=AAA" = .error .invalidCharacter :=
  ⟨claim_C5.1 "AB*C" '*' (by decide) (by decide) (by decide) (by decide),
   claim_C5.2.1 "=AAA" 0 (Or.inl (by decide))⟩

/-- C6 (amended): a non-empty input whose whitespace-stripped length is
congruent to 1 mod 4 is rejected, but with the `invalidCharacter`
condition — right-padding with `=` always reaches a multiple of 4, the
padded last group then has `=` in its second slot, and the
`invalidLength` branch of `decodeBase64` is unreachable on every input. -/
theorem claim_C6 :
    (∀ s : String, (s.data.filter (fun c => ! isJsWhitespace c)).length % 4 = 1 →
      decodeBase64 s = .error .invalidCharacter)
    ∧ (∀ s : String, decodeBase64 s ≠ .error .invalidLength) := by
  constructor
  · intro s hmod
    set cl := s.data.filter (fun c => ! isJsWhitespace c) with hcl
    have hpad : (if cl.length % 4 = 0 then cl
        else cl ++ List.replicate (4 - cl.length % 4) '=') = cl ++ ['=', '=', '='] := by
      rw [if_neg (by omega), hmod]
      rfl
    exact decodeBase64_groups_error s cl _ hcl.symm (by omega)
      (by rw [hpad]; exact len1mod_error cl hmod)
  · intro s hcontra
    rcases decodeBase64_shape s with ⟨r, hr⟩ | hr
    · rw [hcontra] at hr
      exact nomatch hr
    · rw [hcontra] at hr
      injection hr with hr
      exact nomatch hr

theorem claim_C6_counterexample :
    decodeBase64 "A" = .error .invalidCharacter
    ∧ Err.invalidCharacter ≠ Err.invalidLength := by
  constructor
  · decide
  · decide

theorem claim_C6_witness :
    decodeBase64 "AAAAA" = .error .invalidCharacter
    ∧ decodeBase64 "AAAA" ≠ .error .invalidLength :=
  ⟨claim_C6.1 "AAAAA" (by decide), claim_C6.2 "AAAA"⟩

/- ================= Poll-loop lemmas ================= -/

theorem pollFrom_succ (resp : Nat → PollAttempt) (i fuel : Nat) :
    pollFrom resp i (fuel + 1) =
      match resp i with
      | .httpError => pollFrom resp (i + 1) fuel
      | .response st payload =>
        if st = "SUCCEED" then .success payload (i + 1) (pollIntervalMs * (i + 1))
        else if st = "FAILED" then .taskFailed (i + 1)
        else pollFrom resp (i + 1) fuel := rfl

theorem pollFrom_all_pending (resp : Nat → PollAttempt) :
    ∀ (fuel i : Nat) (ps : Nat → MSPayload),
    (∀ j, j < fuel → resp (i + j) = .response "PENDING" (ps (i + j))) →
    pollFrom resp i fuel = .timeout := by
  intro fuel
  induction fuel with
  | zero => intro i ps _; rfl
  | succ f ihf =>
    intro i ps hall
    rw [pollFrom_succ]
    have h0 := hall 0 (by omega)
    simp only [Nat.add_zero] at h0
    simp only [h0]
    rw [if_neg (by decide : ¬ (("PENDING" : String) = "SUCCEED"))]
    rw [if_neg (by decide : ¬ (("PENDING" : String) = "FAILED"))]
    exact ihf (i + 1) ps (fun j hj => by
      have hh := hall (j + 1) (by omega)
      rw [show i + 1 + j = i + (j + 1) from by ring]
      exact hh)

/-- C3: after a submission that returns a job handle, the orchestrator
drives the fixed-interval (5000 ms), 60-attempt poll loop:
`PENDING, PENDING, SUCCEED` with an extractable image yields the success
result after exactly 3 polls (having slept 3 intervals); 60 consecutive
`PENDING` responses yield the `pollTimeout` failure; and a `FAILED`
response on the first attempt yields `upstreamTaskFailed` immediately,
whatever the later poll responses would have been. -/
theorem claim_C3 :
    (∀ (o : MSOracles) (tid : String) (pl p0 p1 p : MSPayload),
      o.submit = .accepted (some tid) pl →
      o.poll 0 = .response "PENDING" p0 → o.poll 1 = .response "PENDING" p1 →
      o.poll 2 = .response "SUCCEED" p → extractImages p ≠ [] →
      handleModelScopePollPhase o =
        .ok ⟨renderImages (extractImages p), 3, pollIntervalMs * 3⟩)
    ∧ (∀ (o : MSOracles) (tid : String) (pl : MSPayload) (ps : Nat → MSPayload),
      o.submit = .accepted (some tid) pl →
      (∀ i, i < maxPollAttempts → o.poll i = .response "PENDING" (ps i)) →
      handleModelScopePollPhase o = .error .pollTimeout)
    ∧ (∀ (o : MSOracles) (tid : String) (pl p : MSPayload),
      o.submit = .accepted (some tid) pl → o.poll 0 = .response "FAILED" p →
      handleModelScopePollPhase o = .error .upstreamTaskFailed) := by
  refine ⟨?_, ?_, ?_⟩
  · intro o tid pl p0 p1 p hsub h0 h1 h2 _
    have hrun : runPoll o.poll = .success p 3 (pollIntervalMs * 3) := by
      show pollFrom o.poll 0 60 = _
      rw [show (60 : Nat) = 59 + 1 from rfl, pollFrom_succ]
      simp only [h0]
      rw [if_neg (by decide : ¬ (("PENDING" : String) = "SUCCEED"))]
      rw [if_neg (by decide : ¬ (("PENDING" : String) = "FAILED"))]
      rw [show (59 : Nat) = 58 + 1 from rfl, pollFrom_succ]
      simp only [h1]
      rw [if_neg (by decide : ¬ (("PENDING" : String) = "SUCCEED"))]
      rw [if_neg (by decide : ¬ (("PENDING" : String) = "FAILED"))]
      rw [show (58 : Nat) = 57 + 1 from rfl, pollFrom_succ]
      simp only [h2]
      norm_num
    simp only [handleModelScopePollPhase, hsub, hrun]
  · intro o tid pl ps hsub hall
    have hrun : runPoll o.poll = .timeout := by
      refine pollFrom_all_pending o.poll 60 0 ps (fun j hj => ?_)
      have := hall j (by simpa [maxPollAttempts] using hj)
      simpa using this
    simp only [handleModelScopePollPhase, hsub, hrun]
  · intro o tid pl p hsub h0
    have hrun : runPoll o.poll = .taskFailed 1 := by
      show pollFrom o.poll 0 60 = _
      rw [show (60 : Nat) = 59 + 1 from rfl, pollFrom_succ]
      simp only [h0]
      rw [if_neg (by decide : ¬ (("FAILED" : String) = "SUCCEED"))]
      norm_num
    simp only [handleModelScopePollPhase, hsub, hrun]

theorem claim_C3_witness :
    handleModelScopePollPhase
      ⟨SubmitOutcome.accepted (some "x") {},
        fun i => if i = 2 then PollAttempt.response "SUCCEED"
            { output_images := some [ImgVal.str "http://img/1.png"] }
          else PollAttempt.response "PENDING" {}⟩ =
      .ok ⟨renderImages (extractImages { output_images := some [ImgVal.str "http://img/1.png"] }),
        3, pollIntervalMs * 3⟩
    ∧ handleModelScopePollPhase
      ⟨SubmitOutcome.accepted (some "x") {}, fun _ => PollAttempt.response "PENDING" {}⟩ =
      .error .pollTimeout
    ∧ handleModelScopePollPhase
      ⟨SubmitOutcome.accepted (some "x") {}, fun _ => PollAttempt.response "FAILED" {}⟩ =
      .error .upstreamTaskFailed :=
  ⟨claim_C3.1 _ "x" {} {} {} { output_images := some [ImgVal.str "http://img/1.png"] }
      rfl rfl rfl rfl (by decide),
   claim_C3.2.1 _ "x" {} (fun _ => {}) rfl (fun _ _ => rfl),
   claim_C3.2.2 _ "x" {} {} rfl rfl⟩

/-- C7: every `ResolvedImage` a successful `resolveImage` call returns —
on the inline data-URL path or on the remote-fetch path (with a
wellformed fetch oracle whose body chunks carry octets) — satisfies the
invariant: `size` equals the byte count, `mime` begins with `image/`,
`base64` is the Codec encoding of `bytes`, `dataUrl` is
`data:<mime>;base64,<base64>`, and the inline form round-trips to the
same bytes via the Codec. -/
theorem claim_C7 (url : String) (maxBytes : Nat) (allowPN : Bool) (parsed : Option UrlParts)
    (f : FetchOutcome) (r : ResolvedImage) (hwf : WellFormedFetch f)
    (h : resolveImage url maxBytes allowPN parsed f = .ok r) :
    r.size = r.bytes.length
    ∧ jsStartsWith r.mime "image/" = true
    ∧ r.base64 = encodeBase64 r.bytes
    ∧ r.dataUrl = "data:" ++ r.mime ++ ";base64," ++ r.base64
    ∧ decodeBase64 r.base64 = .ok r.bytes := by
  simp only [resolveImage] at h
  by_cases htrim : jsTrim url = ""
  · rw [if_pos htrim] at h
    exact nomatch h
  · rw [if_neg htrim] at h
    cases hdu : isDataUrl url with
    | true =>
      rw [if_pos (by rw [hdu])] at h
      cases hpd : parseDataUrlToBytes url with
      | error e =>
        simp only [hpd] at h
        exact nomatch h
      | ok pr =>
        obtain ⟨mime, bytes⟩ := pr
        simp only [hpd] at h
        by_cases hsz : maxBytes < bytes.length
        · rw [if_pos hsz] at h
          exact nomatch h
        · rw [if_neg hsz] at h
          injection h with h
          subst h
          obtain ⟨hmime, hbl⟩ := parseDataUrlToBytes_ok url mime bytes hpd
          exact ⟨rfl, hmime, rfl, rfl, decode_encode_ok bytes hbl⟩
    | false =>
      rw [if_neg (by rw [hdu]; simp)] at h
      cases parsed with
      | none => exact nomatch h
      | some u =>
        cases hau : assertAllowedRemoteUrl u allowPN with
        | some e =>
          simp only [hau] at h
          exact nomatch h
        | none =>
          simp only [hau] at h
          cases hok : f.ok with
          | false =>
            rw [if_pos (by rw [hok]; rfl)] at h
            exact nomatch h
          | true =>
            rw [if_neg (by rw [hok]; simp)] at h
            cases hcv : ctValid (f.contentType.bind normalizeMime) with
            | false =>
              rw [if_pos (by rw [hcv]; rfl)] at h
              exact nomatch h
            | true =>
              rw [if_neg (by rw [hcv]; simp)] at h
              cases hrr : readResponseBytesWithLimit f.contentLengthHeader f.body maxBytes with
              | error e =>
                simp only [hrr] at h
                exact nomatch h
              | ok bytes =>
                simp only [hrr] at h
                injection h with h
                subst h
                have hbl : ∀ b ∈ bytes, b < 256 :=
                  readResponseBytesWithLimit_ok_bytes _ _ _ _ hrr
                    (fun chunks hc => hwf chunks hc)
                exact ⟨rfl, ctValid_startsWith _ hcv, rfl, rfl, decode_encode_ok bytes hbl⟩

theorem claim_C7_witness :
    (3 : Nat) = ([0, 1, 2] : List Nat).length
    ∧ jsStartsWith "image/png" "image/" = true
    ∧ ("AAEC" : String) = encodeBase64 [0, 1, 2]
    ∧ ("data:image/png;base64,AAEC" : String) = "data:" ++ "image/png" ++ ";base64," ++ "AAEC"
    ∧ decodeBase64 "AAEC" = .ok [0, 1, 2] :=
  claim_C7 "data:image/png;base64,AAEC" 100 false none ⟨false, none, none, none⟩
    { url := "data:image/png;base64,AAEC", mime := "image/png", bytes := [0, 1, 2],
      base64 := "AAEC", dataUrl := "data:image/png;base64,AAEC", size := 3 }
    (fun chunks hc => nomatch hc) (by decide)

end ImgRouter
